import Mathlib

/-!
Shallow embedding of the `dualhashkey` crate (`src/lib.rs`).

A `DualHashKey` wraps a `NonZeroU64`: a 64-bit word that is never zero,
logically split into a high 32-bit half (bits 32..63) and a low 32-bit
half (bits 0..31).  Machine integers are modelled as `Nat` with explicit
`% 2^64` / `% 2^32` reductions where the Rust types truncate; the
`NonZeroU64` invariant is carried as proof fields of the structure.
-/

/-- `LOW_MASK`: `u32::MAX as u64`, a mask for the low half. -/
def LOW_MASK : Nat := 2^32 - 1

/-- `HIGH_MASK`: `!(u32::MAX as u64)`; Rust `!` on `u64` is subtraction from
the all-ones 64-bit word. -/
def HIGH_MASK : Nat := (2^64 - 1) - LOW_MASK

/-- `HIGH_SHIFT`: the offset of the high half. -/
def HIGH_SHIFT : Nat := 32

/-- `DualHashKey`: a 64-bit key whose raw value is never zero
(`pub struct DualHashKey { pub hash: NonZeroU64 }`). -/
structure DualHashKey where
  hash : Nat
  hash_pos : 0 < hash
  hash_lt : hash < 2^64

instance : DecidableEq DualHashKey := fun a b =>
  if h : a.hash = b.hash then
    .isTrue (by cases a; cases b; cases h; rfl)
  else
    .isFalse (by intro e; cases e; exact h rfl)

/-- The external collaborator `const_fnv1a_hash::fnv1a_hash_32` (seed `None`):
32-bit FNV-1a over a byte sequence, offset basis `0x811c9dc5`, prime
`0x01000193`, state truncated to 32 bits after each multiply. -/
def fnv1a_hash_32 (bytes : List Nat) : Nat :=
  bytes.foldl (fun h b => ((h ^^^ (b % 256)) * 16777619) % 2^32) 2166136261

/-- The external collaborator `const_fnv1a_hash::fnv1a_hash_str_32`:
FNV-1a over the UTF-8 bytes of a string. -/
def fnv1a_hash_str_32 (s : String) : Nat :=
  fnv1a_hash_32 (s.toUTF8.toList.map (fun b => b.toNat))

/-- `DualHashKey::from_raw`: validated construction from a raw `u64` word,
via `NonZeroU64::new` (`None` exactly when the word is zero). -/
def DualHashKey.from_raw (hash : Nat) : Option DualHashKey :=
  if h : hash % 2^64 = 0 then none
  else some ⟨hash % 2^64, Nat.pos_of_ne_zero h, Nat.mod_lt _ (by norm_num)⟩

/-- `DualHashKey::from_raw_dual`: pack `(high as u64) << HIGH_SHIFT | (low as u64)`
and validate. -/
def DualHashKey.from_raw_dual (high low : Nat) : Option DualHashKey :=
  DualHashKey.from_raw (((high % 2^32) <<< HIGH_SHIFT) ||| (low % 2^32))

/-- `DualHashKey::from_raw_high`: pack `(high as u64) << HIGH_SHIFT`, low half
zero, and validate. -/
def DualHashKey.from_raw_high (high : Nat) : Option DualHashKey :=
  DualHashKey.from_raw ((high % 2^32) <<< HIGH_SHIFT)

/-- `DualHashKey::from_raw_unchecked`: direct construction; the Rust safety
contract (`hash` non-zero) is carried as an explicit hypothesis. -/
def DualHashKey.from_raw_unchecked (hash : Nat) (h : hash % 2^64 ≠ 0) : DualHashKey :=
  ⟨hash % 2^64, Nat.pos_of_ne_zero h, Nat.mod_lt _ (by norm_num)⟩

/-- `DualHashKey::get_hash_raw`: the wrapped word as `u64`. -/
def DualHashKey.get_hash_raw (k : DualHashKey) : Nat := k.hash

/-- `DualHashKey::get_hash_high_half`: `(raw >> HIGH_SHIFT) as u32`. -/
def DualHashKey.get_hash_high_half (k : DualHashKey) : Nat :=
  (k.get_hash_raw >>> HIGH_SHIFT) % 2^32

/-- `DualHashKey::get_hash_low_half`: `(raw & LOW_MASK) as u32`. -/
def DualHashKey.get_hash_low_half (k : DualHashKey) : Nat :=
  (k.get_hash_raw &&& LOW_MASK) % 2^32

/-- `DualHashKey::swapped`: the source passes
`(self.get_hash_high_half(), self.get_hash_low_half())` to
`from_raw_dual(high, low)` in this order. -/
def DualHashKey.swapped (k : DualHashKey) : Option DualHashKey :=
  DualHashKey.from_raw_dual k.get_hash_high_half k.get_hash_low_half

/-- `DualHashKey::with_high_half_raw`:
`from_raw((raw & LOW_MASK) | ((high as u64) << HIGH_SHIFT))`. -/
def DualHashKey.with_high_half_raw (k : DualHashKey) (high : Nat) : Option DualHashKey :=
  DualHashKey.from_raw ((k.get_hash_raw &&& LOW_MASK) ||| ((high % 2^32) <<< HIGH_SHIFT))

/-- `DualHashKey::with_low_half_raw`:
`from_raw((raw & HIGH_MASK) | (low as u64))`. -/
def DualHashKey.with_low_half_raw (k : DualHashKey) (low : Nat) : Option DualHashKey :=
  DualHashKey.from_raw ((k.get_hash_raw &&& HIGH_MASK) ||| (low % 2^32))

/-- `DualHashKey::is_hash_low_half_set`. -/
def DualHashKey.is_hash_low_half_set (k : DualHashKey) : Bool :=
  k.get_hash_low_half != 0

/-- `DualHashKey::is_hash_low_half_clear`. -/
def DualHashKey.is_hash_low_half_clear (k : DualHashKey) : Bool :=
  k.get_hash_low_half == 0

/-- `DualHashKey::get_hash_low_half_min_raw`: `raw & HIGH_MASK`. -/
def DualHashKey.get_hash_low_half_min_raw (k : DualHashKey) : Nat :=
  k.get_hash_raw &&& HIGH_MASK

/-- `DualHashKey::get_hash_low_half_max_raw`: `raw | LOW_MASK`. -/
def DualHashKey.get_hash_low_half_max_raw (k : DualHashKey) : Nat :=
  k.get_hash_raw ||| LOW_MASK

/-- `DualHashKey::get_hash_low_half_min`: `from_raw(raw & HIGH_MASK)`. -/
def DualHashKey.get_hash_low_half_min (k : DualHashKey) : Option DualHashKey :=
  DualHashKey.from_raw k.get_hash_low_half_min_raw

/-- `DualHashKey::get_hash_low_half_max`: `from_raw_unchecked(raw | LOW_MASK)`;
the source's safety comment (the `| LOW_MASK` forces the low bits set, so the
word cannot be zero) becomes the inline proof of the precondition. -/
def DualHashKey.get_hash_low_half_max (k : DualHashKey) : DualHashKey :=
  DualHashKey.from_raw_unchecked k.get_hash_low_half_max_raw (by
    have h1 : k.get_hash_low_half_max_raw < 2^64 :=
      Nat.or_lt_two_pow k.hash_lt (by norm_num [LOW_MASK])
    have h2 : LOW_MASK ≤ k.get_hash_low_half_max_raw :=
      Nat.le_of_testBit (by
        intro i hi
        simp [DualHashKey.get_hash_low_half_max_raw, Nat.testBit_or, hi])
    have h3 : (0:Nat) < LOW_MASK := by norm_num [LOW_MASK]
    rw [Nat.mod_eq_of_lt h1]
    omega)

/-- The derived `Ord` on the single-field struct (`#[derive(PartialOrd, Ord)]`):
compare the raw `u64` words. -/
def DualHashKey.cmp (a b : DualHashKey) : Ordering :=
  compare a.get_hash_raw b.get_hash_raw

/-- `TryFrom<u64> for DualHashKey`. -/
def DualHashKey.try_from_u64 (value : Nat) : Except String DualHashKey :=
  match DualHashKey.from_raw value with
  | some k => Except.ok k
  | none => Except.error "value given to DHK::from_raw is zero"

/-- `DualHashKey::from_high_bytes`. -/
def DualHashKey.from_high_bytes (high : List Nat) : Option DualHashKey :=
  DualHashKey.from_raw_high (fnv1a_hash_32 high)

/-- `DualHashKey::from_high_str`. -/
def DualHashKey.from_high_str (high : String) : Option DualHashKey :=
  DualHashKey.from_raw_high (fnv1a_hash_str_32 high)

/-- `TryFrom<&[u8]> for DualHashKey`. -/
def DualHashKey.try_from_bytes (value : List Nat) : Except String DualHashKey :=
  match DualHashKey.from_high_bytes value with
  | some k => Except.ok k
  | none => Except.error "generated hash of high-half bytes is zero"

/-- `TryFrom<&str> for DualHashKey`. -/
def DualHashKey.try_from_str (value : String) : Except String DualHashKey :=
  match DualHashKey.from_high_str value with
  | some k => Except.ok k
  | none => Except.error "generated hash of high-half string is zero"

/-- Sample key with high half `1` and low half `2` (raw `0x0000000100000002`). -/
def K12 : DualHashKey := ⟨4294967298, by norm_num, by norm_num⟩

/-- Sample key with high half `1` and low half `5` (raw `0x0000000100000005`). -/
def K15 : DualHashKey := ⟨4294967301, by norm_num, by norm_num⟩

/-- Sample key with high half `1` and low half `0` (raw `0x0000000100000000`). -/
def M10 : DualHashKey := ⟨4294967296, by norm_num, by norm_num⟩

/-- Sample key with high half `7` and low half `5` (raw `0x0000000700000005`). -/
def H75 : DualHashKey := ⟨30064771077, by norm_num, by norm_num⟩

/-- Sample key with high half `1` and low half `7` (raw `0x0000000100000007`). -/
def L17 : DualHashKey := ⟨4294967303, by norm_num, by norm_num⟩

/-! ### Bridge lemmas: bit operations as arithmetic -/

/-- Keys with equal raw words are equal (proof irrelevance of the invariant). -/
theorem DualHashKey.ext_hash {a b : DualHashKey} (h : a.hash = b.hash) : a = b := by
  cases a; cases b; cases h; rfl

/-- Masking with `LOW_MASK` is reduction mod `2^32`. -/
theorem andLowMask_eq (x : Nat) : x &&& LOW_MASK = x % 2^32 := by
  rw [show LOW_MASK = 2^32 - 1 from rfl]
  exact Nat.and_pow_two_sub_one_eq_mod x 32

/-- `&&&` acts independently on the two 32-bit halves. -/
theorem split_and (h1 l1 h2 l2 : Nat) (hl1 : l1 < 2^32) (hl2 : l2 < 2^32) :
    (2^32 * h1 + l1) &&& (2^32 * h2 + l2) = 2^32 * (h1 &&& h2) + (l1 &&& l2) := by
  apply Nat.eq_of_testBit_eq
  intro j
  rw [Nat.testBit_and, Nat.testBit_mul_pow_two_add _ hl1 j, Nat.testBit_mul_pow_two_add _ hl2 j,
    Nat.testBit_mul_pow_two_add _ (Nat.and_lt_two_pow l1 hl2) j]
  by_cases hj : j < 32 <;> simp [hj]

/-- `|||` acts independently on the two 32-bit halves. -/
theorem split_or (h1 l1 h2 l2 : Nat) (hl1 : l1 < 2^32) (hl2 : l2 < 2^32) :
    (2^32 * h1 + l1) ||| (2^32 * h2 + l2) = 2^32 * (h1 ||| h2) + (l1 ||| l2) := by
  apply Nat.eq_of_testBit_eq
  intro j
  rw [Nat.testBit_or, Nat.testBit_mul_pow_two_add _ hl1 j, Nat.testBit_mul_pow_two_add _ hl2 j,
    Nat.testBit_mul_pow_two_add _ (Nat.or_lt_two_pow hl1 hl2) j]
  by_cases hj : j < 32 <;> simp [hj]

/-- Or-ing a value below `2^n` into the all-ones mask is absorbed. -/
theorem or_mask_of_lt {l n : Nat} (hl : l < 2^n) : l ||| (2^n - 1) = 2^n - 1 := by
  apply Nat.eq_of_testBit_eq
  intro j
  rw [Nat.testBit_or, Nat.testBit_two_pow_sub_one]
  by_cases hj : j < n
  · simp [hj]
  · have hlj : l < 2^j :=
      lt_of_lt_of_le hl (Nat.pow_le_pow_right (by norm_num) (Nat.le_of_not_lt hj))
    simp [hj, Nat.testBit_lt_two_pow hlj]

/-- Masking with `HIGH_MASK` clears the low half. -/
theorem andHighMask_eq (x : Nat) (hx : x < 2^64) : x &&& HIGH_MASK = 2^32 * (x / 2^32) := by
  have hd : x / 2^32 < 2^32 := Nat.div_lt_of_lt_mul (by omega)
  conv_lhs => rw [← Nat.div_add_mod x (2^32)]
  rw [show HIGH_MASK = 2^32 * (2^32 - 1) + 0 by norm_num [HIGH_MASK, LOW_MASK]]
  rw [split_and _ _ _ _ (Nat.mod_lt _ (by norm_num)) (by norm_num)]
  rw [Nat.and_zero, Nat.add_zero]
  congr 1
  rw [Nat.and_pow_two_sub_one_eq_mod]
  exact Nat.mod_eq_of_lt hd

/-- Or-ing with `LOW_MASK` fills the low half. -/
theorem orLowMask_eq (x : Nat) : x ||| LOW_MASK = 2^32 * (x / 2^32) + (2^32 - 1) := by
  conv_lhs => rw [← Nat.div_add_mod x (2^32)]
  rw [show LOW_MASK = 2^32 * 0 + (2^32 - 1) by norm_num [LOW_MASK]]
  rw [split_or _ _ _ _ (Nat.mod_lt _ (by norm_num)) (by norm_num)]
  rw [Nat.or_zero, or_mask_of_lt (Nat.mod_lt _ (by norm_num))]

/-- Packing `(h << 32) | l` is `2^32 * h + l` when `l` fits the low half. -/
theorem pack_eq (h l : Nat) (hl : l < 2^32) : (h <<< HIGH_SHIFT) ||| l = 2^32 * h + l := by
  rw [show HIGH_SHIFT = 32 from rfl, Nat.shiftLeft_eq, Nat.mul_comm]
  exact (Nat.mul_add_lt_is_or hl h).symm

/-! ### Accessor characterizations -/

/-- The high half is the upper 32 bits of the word. -/
theorem DualHashKey.high_half_eq (k : DualHashKey) : k.get_hash_high_half = k.hash / 2^32 := by
  have hd : k.hash / 2^32 < 2^32 := Nat.div_lt_of_lt_mul (by have := k.hash_lt; omega)
  unfold DualHashKey.get_hash_high_half DualHashKey.get_hash_raw
  rw [show HIGH_SHIFT = 32 from rfl, Nat.shiftRight_eq_div_pow]
  exact Nat.mod_eq_of_lt hd

/-- The low half is the lower 32 bits of the word. -/
theorem DualHashKey.low_half_eq (k : DualHashKey) : k.get_hash_low_half = k.hash % 2^32 := by
  unfold DualHashKey.get_hash_low_half DualHashKey.get_hash_raw
  rw [andLowMask_eq]
  exact Nat.mod_eq_of_lt (Nat.mod_lt _ (by norm_num))

theorem DualHashKey.high_half_lt (k : DualHashKey) : k.get_hash_high_half < 2^32 := by
  rw [k.high_half_eq]
  exact Nat.div_lt_of_lt_mul (by have := k.hash_lt; omega)

theorem DualHashKey.low_half_lt (k : DualHashKey) : k.get_hash_low_half < 2^32 := by
  rw [k.low_half_eq]
  exact Nat.mod_lt _ (by norm_num)

/-- A key is its high half packed above its low half. -/
theorem DualHashKey.hash_decomp (k : DualHashKey) :
    k.hash = 2^32 * k.get_hash_high_half + k.get_hash_low_half := by
  rw [k.high_half_eq, k.low_half_eq]
  exact (Nat.div_add_mod k.hash (2^32)).symm

/-! ### `from_raw` characterizations -/

theorem from_raw_eq_none_iff (x : Nat) : DualHashKey.from_raw x = none ↔ x % 2^64 = 0 := by
  unfold DualHashKey.from_raw
  split
  next h => exact iff_of_true rfl h
  next h => exact iff_of_false (by simp) h

theorem from_raw_eq_some_iff (x : Nat) (k : DualHashKey) :
    DualHashKey.from_raw x = some k ↔ x % 2^64 ≠ 0 ∧ k.hash = x % 2^64 := by
  unfold DualHashKey.from_raw
  split
  next h => exact iff_of_false (by simp) (fun hc => hc.1 h)
  next h =>
    simp only [Option.some.injEq]
    constructor
    · rintro rfl
      exact ⟨h, rfl⟩
    · rintro ⟨-, hk⟩
      exact DualHashKey.ext_hash hk.symm

/-- Re-validating a key's own word gives the key back. -/
theorem DualHashKey.from_raw_self (k : DualHashKey) : DualHashKey.from_raw k.hash = some k := by
  rw [from_raw_eq_some_iff, Nat.mod_eq_of_lt k.hash_lt]
  have := k.hash_pos
  omega

/-! ### Derivation characterizations -/

/-- The minimum bound's raw word keeps the high half, clears the low half. -/
theorem DualHashKey.min_raw_eq (k : DualHashKey) :
    k.get_hash_low_half_min_raw = 2^32 * k.get_hash_high_half := by
  unfold DualHashKey.get_hash_low_half_min_raw DualHashKey.get_hash_raw
  rw [andHighMask_eq _ k.hash_lt, k.high_half_eq]

/-- The maximum bound's raw word keeps the high half, fills the low half. -/
theorem DualHashKey.max_raw_eq (k : DualHashKey) :
    k.get_hash_low_half_max_raw = 2^32 * k.get_hash_high_half + (2^32 - 1) := by
  unfold DualHashKey.get_hash_low_half_max_raw DualHashKey.get_hash_raw
  rw [orLowMask_eq, k.high_half_eq]

theorem DualHashKey.max_raw_lt (k : DualHashKey) : k.get_hash_low_half_max_raw < 2^64 := by
  rw [k.max_raw_eq]
  have := k.high_half_lt
  omega

/-- The word of the maximum-bound key. -/
theorem DualHashKey.max_hash_eq (k : DualHashKey) :
    (k.get_hash_low_half_max).hash = 2^32 * k.get_hash_high_half + (2^32 - 1) := by
  show k.get_hash_low_half_max_raw % 2^64 = _
  rw [Nat.mod_eq_of_lt k.max_raw_lt, k.max_raw_eq]

theorem DualHashKey.max_high_eq (k : DualHashKey) :
    (k.get_hash_low_half_max).get_hash_high_half = k.get_hash_high_half := by
  rw [DualHashKey.high_half_eq, k.max_hash_eq]
  have := k.high_half_lt
  omega

theorem DualHashKey.max_low_eq (k : DualHashKey) :
    (k.get_hash_low_half_max).get_hash_low_half = 2^32 - 1 := by
  rw [DualHashKey.low_half_eq, k.max_hash_eq]
  omega

/-- The word built by `with_high_half_raw`. -/
theorem DualHashKey.with_high_word_eq (k : DualHashKey) (v : Nat) (hv : v < 2^32) :
    (k.get_hash_raw &&& LOW_MASK) ||| ((v % 2^32) <<< HIGH_SHIFT) =
      2^32 * v + k.get_hash_low_half := by
  rw [Nat.mod_eq_of_lt hv]
  unfold DualHashKey.get_hash_raw
  rw [andLowMask_eq, ← k.low_half_eq, Nat.or_comm, pack_eq _ _ k.low_half_lt]

/-- The word built by `with_low_half_raw`. -/
theorem DualHashKey.with_low_word_eq (k : DualHashKey) (v : Nat) (hv : v < 2^32) :
    (k.get_hash_raw &&& HIGH_MASK) ||| (v % 2^32) = 2^32 * k.get_hash_high_half + v := by
  rw [Nat.mod_eq_of_lt hv]
  unfold DualHashKey.get_hash_raw
  rw [andHighMask_eq _ k.hash_lt, ← k.high_half_eq]
  exact (Nat.mul_add_lt_is_or hv _).symm

/-- `swapped` as written in the source reconstructs the key unchanged. -/
theorem DualHashKey.swapped_eq (k : DualHashKey) : k.swapped = some k := by
  unfold DualHashKey.swapped DualHashKey.from_raw_dual
  rw [Nat.mod_eq_of_lt k.high_half_lt, Nat.mod_eq_of_lt k.low_half_lt,
    pack_eq _ _ k.low_half_lt, ← k.hash_decomp]
  exact k.from_raw_self

/-- The packed word of `from_raw_high` fits in 64 bits. -/
theorem shifted_high_lt (x : Nat) : (x % 2^32) <<< HIGH_SHIFT < 2^64 := by
  rw [show HIGH_SHIFT = 32 from rfl, Nat.shiftLeft_eq]
  omega

/-! ### Claims -/

/-- C1: the claim says `swapped` exchanges the halves, but the source passes
`(get_hash_high_half(), get_hash_low_half())` to `from_raw_dual(high, low)`
in unchanged order, contradicting its own doc comment ("Swaps the low and
high halfes").  At the key `0x0000000100000002` (high `1`, low `2`) the code
returns the key unchanged, with high half still `1` and low half still `2`. -/
theorem claim_C1_bug :
    K12.get_hash_high_half = 1 ∧ K12.get_hash_low_half = 2 ∧ K12.swapped = some K12 := by
  decide

/-- C2: for every 32-bit pair `(h, l)` not both zero, `from_raw_dual h l`
succeeds and the halves read back exactly as `h` and `l`; `from_raw_dual 0 0`
returns no value. -/
theorem claim_C2 (h l : Nat) (hh : h < 2^32) (hl : l < 2^32) :
    (¬(h = 0 ∧ l = 0) →
      ∃ k : DualHashKey, DualHashKey.from_raw_dual h l = some k ∧
        k.get_hash_high_half = h ∧ k.get_hash_low_half = l)
    ∧ DualHashKey.from_raw_dual 0 0 = none := by
  constructor
  · intro hne
    have hne0 : 2^32 * h + l ≠ 0 := by
      push_neg at hne
      omega
    have hlt : 2^32 * h + l < 2^64 := by omega
    refine ⟨⟨2^32 * h + l, Nat.pos_of_ne_zero hne0, hlt⟩, ?_, ?_, ?_⟩
    · unfold DualHashKey.from_raw_dual
      rw [Nat.mod_eq_of_lt hh, Nat.mod_eq_of_lt hl, pack_eq _ _ hl,
        from_raw_eq_some_iff, Nat.mod_eq_of_lt hlt]
      exact ⟨hne0, rfl⟩
    · rw [DualHashKey.high_half_eq]
      show (2^32 * h + l) / 2^32 = h
      omega
    · rw [DualHashKey.low_half_eq]
      show (2^32 * h + l) % 2^32 = l
      omega
  · decide

/-- C2 witness: at the concrete pair `(3, 5)`. -/
theorem claim_C2_witness :
    ∃ k : DualHashKey, DualHashKey.from_raw_dual 3 5 = some k ∧
      k.get_hash_high_half = 3 ∧ k.get_hash_low_half = 5 :=
  (claim_C2 3 5 (by norm_num) (by norm_num)).1 (by omega)

/-- C3: a valid key's raw word lies inclusively between `get_hash_low_half_min_raw k`
and `get_hash_low_half_max_raw k` exactly when its high half equals `k`'s high
half; consequently filtering any list of keys by the raw-word bounds selects
exactly the keys sharing `k`'s high half. -/
theorem claim_C3 (k x : DualHashKey) :
    ((k.get_hash_low_half_min_raw ≤ x.get_hash_raw ∧
        x.get_hash_raw ≤ k.get_hash_low_half_max_raw) ↔
      x.get_hash_high_half = k.get_hash_high_half)
    ∧ ∀ L : List DualHashKey,
        L.filter (fun y => decide (k.get_hash_low_half_min_raw ≤ y.get_hash_raw ∧
          y.get_hash_raw ≤ k.get_hash_low_half_max_raw)) =
        L.filter (fun y => decide (y.get_hash_high_half = k.get_hash_high_half)) := by
  have key : ∀ y : DualHashKey,
      (k.get_hash_low_half_min_raw ≤ y.get_hash_raw ∧
        y.get_hash_raw ≤ k.get_hash_low_half_max_raw) ↔
      y.get_hash_high_half = k.get_hash_high_half := by
    intro y
    rw [k.min_raw_eq, k.max_raw_eq]
    have h1 := y.low_half_lt
    have h2 := y.high_half_lt
    have h3 := k.high_half_lt
    have h4 := y.hash_decomp
    unfold DualHashKey.get_hash_raw
    omega
  exact ⟨key x, fun L => List.filter_congr (fun y _ => decide_eq_decide.mpr (key y))⟩

/-- C4: `get_hash_low_half_max` never fails — the word it hands to the
unchecked constructor is never zero — and its result has an all-ones low
half (`u32::MAX`) and the high half of `k`. -/
theorem claim_C4 (k : DualHashKey) :
    k.get_hash_low_half_max_raw % 2^64 ≠ 0
    ∧ (k.get_hash_low_half_max).get_hash_low_half = 2^32 - 1
    ∧ (k.get_hash_low_half_max).get_hash_high_half = k.get_hash_high_half := by
  refine ⟨?_, k.max_low_eq, k.max_high_eq⟩
  rw [Nat.mod_eq_of_lt k.max_raw_lt, k.max_raw_eq]
  omega

/-- C5: `get_hash_low_half_min` returns no value exactly when the high half is
zero; on success the result has a zero low half and `k`'s high half. -/
theorem claim_C5 (k : DualHashKey) :
    (k.get_hash_low_half_min = none ↔ k.get_hash_high_half = 0)
    ∧ ∀ m : DualHashKey, k.get_hash_low_half_min = some m →
        m.get_hash_low_half = 0 ∧ m.get_hash_high_half = k.get_hash_high_half := by
  have hlt : k.get_hash_low_half_min_raw < 2^64 := by
    rw [k.min_raw_eq]
    have := k.high_half_lt
    omega
  constructor
  · unfold DualHashKey.get_hash_low_half_min
    rw [from_raw_eq_none_iff, Nat.mod_eq_of_lt hlt, k.min_raw_eq]
    omega
  · intro m hm
    unfold DualHashKey.get_hash_low_half_min at hm
    rw [from_raw_eq_some_iff, Nat.mod_eq_of_lt hlt, k.min_raw_eq] at hm
    obtain ⟨-, hm⟩ := hm
    have := k.high_half_lt
    constructor
    · rw [m.low_half_eq, hm]
      omega
    · rw [m.high_half_eq, hm]
      omega

/-- C5 witness: the key `0x0000000100000005` has minimum bound
`0x0000000100000000`, whose low half is zero and whose high half matches. -/
theorem claim_C5_witness :
    M10.get_hash_low_half = 0 ∧ M10.get_hash_high_half = K15.get_hash_high_half :=
  (claim_C5 K15).2 M10 (by decide)

/-- C6: the type's ordering compares the raw 64-bit words, and that unsigned
order is the lexicographic order on `(high half, low half)`: equal highs are
tie-broken by lows, differing highs decide regardless of lows. -/
theorem claim_C6 (a b : DualHashKey) :
    DualHashKey.cmp a b = compare a.get_hash_raw b.get_hash_raw
    ∧ (a.get_hash_raw < b.get_hash_raw ↔
        (a.get_hash_high_half < b.get_hash_high_half ∨
          (a.get_hash_high_half = b.get_hash_high_half ∧
            a.get_hash_low_half < b.get_hash_low_half)))
    ∧ DualHashKey.cmp a b =
        (compare a.get_hash_high_half b.get_hash_high_half).then
          (compare a.get_hash_low_half b.get_hash_low_half) := by
  have h1 := a.hash_decomp
  have h2 := b.hash_decomp
  have h3 := a.low_half_lt
  have h4 := b.low_half_lt
  refine ⟨rfl, ?_, ?_⟩
  · unfold DualHashKey.get_hash_raw
    omega
  · unfold DualHashKey.cmp DualHashKey.get_hash_raw
    rw [Nat.compare_def_lt, Nat.compare_def_lt, Nat.compare_def_lt]
    rcases Nat.lt_trichotomy a.get_hash_high_half b.get_hash_high_half with hH | hH | hH
    · have hab : a.hash < b.hash := by omega
      simp [hab, hH, Ordering.then]
    · rcases Nat.lt_trichotomy a.get_hash_low_half b.get_hash_low_half with hL | hL | hL
      · have hab : a.hash < b.hash := by omega
        simp [hab, hH, hL, Ordering.then]
      · have hab : a.hash = b.hash := by omega
        simp [hab, hH, hL, Ordering.then]
      · have hab : ¬ a.hash < b.hash := by omega
        have hba : b.hash < a.hash := by omega
        have hLn : ¬ a.get_hash_low_half < b.get_hash_low_half := by omega
        simp [hab, hba, hH, hLn, hL, Ordering.then]
    · have hab : ¬ a.hash < b.hash := by omega
      have hba : b.hash < a.hash := by omega
      have hHn : ¬ a.get_hash_high_half < b.get_hash_high_half := by omega
      simp [hab, hba, hHn, hH, Ordering.then]

/-- C7: replacing one half of a valid key with a 32-bit value `v` fails
exactly when the preserved half is zero and `v` is zero; on success the
replaced half reads back as `v` and the other half is preserved. -/
theorem claim_C7 (k : DualHashKey) (v : Nat) (hv : v < 2^32) :
    (k.with_high_half_raw v = none ↔ (k.get_hash_low_half = 0 ∧ v = 0))
    ∧ (∀ r : DualHashKey, k.with_high_half_raw v = some r →
        r.get_hash_high_half = v ∧ r.get_hash_low_half = k.get_hash_low_half)
    ∧ (k.with_low_half_raw v = none ↔ (k.get_hash_high_half = 0 ∧ v = 0))
    ∧ (∀ r : DualHashKey, k.with_low_half_raw v = some r →
        r.get_hash_low_half = v ∧ r.get_hash_high_half = k.get_hash_high_half) := by
  have hH := k.high_half_lt
  have hL := k.low_half_lt
  have hw1 := k.with_high_word_eq v hv
  have hw2 := k.with_low_word_eq v hv
  have hlt1 : 2^32 * v + k.get_hash_low_half < 2^64 := by omega
  have hlt2 : 2^32 * k.get_hash_high_half + v < 2^64 := by omega
  refine ⟨?_, ?_, ?_, ?_⟩
  · unfold DualHashKey.with_high_half_raw
    rw [hw1, from_raw_eq_none_iff, Nat.mod_eq_of_lt hlt1]
    omega
  · intro r hr
    unfold DualHashKey.with_high_half_raw at hr
    rw [hw1, from_raw_eq_some_iff, Nat.mod_eq_of_lt hlt1] at hr
    obtain ⟨-, hr⟩ := hr
    rw [r.high_half_eq, r.low_half_eq, hr]
    constructor
    · omega
    · omega
  · unfold DualHashKey.with_low_half_raw
    rw [hw2, from_raw_eq_none_iff, Nat.mod_eq_of_lt hlt2]
    omega
  · intro r hr
    unfold DualHashKey.with_low_half_raw at hr
    rw [hw2, from_raw_eq_some_iff, Nat.mod_eq_of_lt hlt2] at hr
    obtain ⟨-, hr⟩ := hr
    rw [r.high_half_eq, r.low_half_eq, hr]
    constructor
    · omega
    · omega

/-- C7 witness: replacing halves of `0x0000000100000005` with `7`. -/
theorem claim_C7_witness :
    (H75.get_hash_high_half = 7 ∧ H75.get_hash_low_half = K15.get_hash_low_half)
    ∧ (L17.get_hash_low_half = 7 ∧ L17.get_hash_high_half = K15.get_hash_high_half) :=
  ⟨(claim_C7 K15 7 (by norm_num)).2.1 H75 (by decide),
   (claim_C7 K15 7 (by norm_num)).2.2.2 L17 (by decide)⟩

/-- C8: `swapped` never returns no value, and applying it twice yields a key
equal to the original (in the source it reconstructs the key unchanged, so
both properties hold trivially). -/
theorem claim_C8 (k : DualHashKey) :
    (k.swapped).isSome = true ∧ k.swapped.bind DualHashKey.swapped = some k := by
  rw [k.swapped_eq]
  exact ⟨rfl, k.swapped_eq⟩

/-- C9: each of the three fallible conversions fails exactly when the packed
word would be zero, always with its own static message, and the three
messages are pairwise distinct. -/
theorem claim_C9 :
    (∀ v : Nat, DualHashKey.try_from_u64 v =
        Except.error "value given to DHK::from_raw is zero" ↔ v % 2^64 = 0)
    ∧ (∀ v : Nat, (∃ k, DualHashKey.try_from_u64 v = Except.ok k) ↔ v % 2^64 ≠ 0)
    ∧ (∀ bs : List Nat, DualHashKey.try_from_bytes bs =
        Except.error "generated hash of high-half bytes is zero" ↔
        (fnv1a_hash_32 bs % 2^32) <<< HIGH_SHIFT = 0)
    ∧ (∀ bs : List Nat, (∃ k, DualHashKey.try_from_bytes bs = Except.ok k) ↔
        (fnv1a_hash_32 bs % 2^32) <<< HIGH_SHIFT ≠ 0)
    ∧ (∀ s : String, DualHashKey.try_from_str s =
        Except.error "generated hash of high-half string is zero" ↔
        (fnv1a_hash_str_32 s % 2^32) <<< HIGH_SHIFT = 0)
    ∧ (∀ s : String, (∃ k, DualHashKey.try_from_str s = Except.ok k) ↔
        (fnv1a_hash_str_32 s % 2^32) <<< HIGH_SHIFT ≠ 0)
    ∧ ("value given to DHK::from_raw is zero" ≠
        "generated hash of high-half bytes is zero"
      ∧ "value given to DHK::from_raw is zero" ≠
        "generated hash of high-half string is zero"
      ∧ "generated hash of high-half bytes is zero" ≠
        "generated hash of high-half string is zero") := by
  refine ⟨?_, ?_, ?_, ?_, ?_, ?_, by decide, by decide, by decide⟩
  · intro v
    unfold DualHashKey.try_from_u64
    cases hfv : DualHashKey.from_raw v with
    | none =>
      rw [from_raw_eq_none_iff] at hfv
      simp only [hfv]
    | some k =>
      rw [from_raw_eq_some_iff] at hfv
      exact iff_of_false (by simp) hfv.1
  · intro v
    unfold DualHashKey.try_from_u64
    cases hfv : DualHashKey.from_raw v with
    | none =>
      rw [from_raw_eq_none_iff] at hfv
      exact iff_of_false (by simp) (fun hc => hc hfv)
    | some k =>
      rw [from_raw_eq_some_iff] at hfv
      exact iff_of_true ⟨k, rfl⟩ hfv.1
  · intro bs
    unfold DualHashKey.try_from_bytes DualHashKey.from_high_bytes DualHashKey.from_raw_high
    cases hfv : DualHashKey.from_raw ((fnv1a_hash_32 bs % 2^32) <<< HIGH_SHIFT) with
    | none =>
      rw [from_raw_eq_none_iff, Nat.mod_eq_of_lt (shifted_high_lt _)] at hfv
      simp only [hfv]
    | some k =>
      rw [from_raw_eq_some_iff, Nat.mod_eq_of_lt (shifted_high_lt _)] at hfv
      exact iff_of_false (by simp) hfv.1
  · intro bs
    unfold DualHashKey.try_from_bytes DualHashKey.from_high_bytes DualHashKey.from_raw_high
    cases hfv : DualHashKey.from_raw ((fnv1a_hash_32 bs % 2^32) <<< HIGH_SHIFT) with
    | none =>
      rw [from_raw_eq_none_iff, Nat.mod_eq_of_lt (shifted_high_lt _)] at hfv
      exact iff_of_false (by simp) (fun hc => hc hfv)
    | some k =>
      rw [from_raw_eq_some_iff, Nat.mod_eq_of_lt (shifted_high_lt _)] at hfv
      exact iff_of_true ⟨k, rfl⟩ hfv.1
  · intro s
    unfold DualHashKey.try_from_str DualHashKey.from_high_str DualHashKey.from_raw_high
    cases hfv : DualHashKey.from_raw ((fnv1a_hash_str_32 s % 2^32) <<< HIGH_SHIFT) with
    | none =>
      rw [from_raw_eq_none_iff, Nat.mod_eq_of_lt (shifted_high_lt _)] at hfv
      simp only [hfv]
    | some k =>
      rw [from_raw_eq_some_iff, Nat.mod_eq_of_lt (shifted_high_lt _)] at hfv
      exact iff_of_false (by simp) hfv.1
  · intro s
    unfold DualHashKey.try_from_str DualHashKey.from_high_str DualHashKey.from_raw_high
    cases hfv : DualHashKey.from_raw ((fnv1a_hash_str_32 s % 2^32) <<< HIGH_SHIFT) with
    | none =>
      rw [from_raw_eq_none_iff, Nat.mod_eq_of_lt (shifted_high_lt _)] at hfv
      exact iff_of_false (by simp) (fun hc => hc hfv)
    | some k =>
      rw [from_raw_eq_some_iff, Nat.mod_eq_of_lt (shifted_high_lt _)] at hfv
      exact iff_of_true ⟨k, rfl⟩ hfv.1

/-- C10: the bound derivations are idempotent: `get_hash_low_half_max` is a
fixed point of itself, a successful `get_hash_low_half_min` result is its own
minimum bound, and a key whose low half is already clear is its own minimum
bound. -/
theorem claim_C10 (k : DualHashKey) :
    (k.get_hash_low_half_max).get_hash_low_half_max = k.get_hash_low_half_max
    ∧ (∀ m : DualHashKey, k.get_hash_low_half_min = some m →
        m.get_hash_low_half_min = some m)
    ∧ (k.is_hash_low_half_clear = true → k.get_hash_low_half_min = some k) := by
  have hminlt : k.get_hash_low_half_min_raw < 2^64 := by
    rw [k.min_raw_eq]
    have := k.high_half_lt
    omega
  refine ⟨?_, ?_, ?_⟩
  · apply DualHashKey.ext_hash
    rw [DualHashKey.max_hash_eq, DualHashKey.max_hash_eq, DualHashKey.max_high_eq]
  · intro m hm
    unfold DualHashKey.get_hash_low_half_min at hm ⊢
    rw [from_raw_eq_some_iff, Nat.mod_eq_of_lt hminlt, k.min_raw_eq] at hm
    obtain ⟨-, hm⟩ := hm
    have hmh : m.get_hash_high_half = k.get_hash_high_half := by
      rw [m.high_half_eq, hm]
      have := k.high_half_lt
      omega
    rw [m.min_raw_eq, hmh, ← hm]
    exact m.from_raw_self
  · intro hcl
    have hl0 : k.get_hash_low_half = 0 := by
      simpa [DualHashKey.is_hash_low_half_clear] using hcl
    unfold DualHashKey.get_hash_low_half_min
    rw [k.min_raw_eq]
    have hd := k.hash_decomp
    rw [show 2^32 * k.get_hash_high_half = k.hash by omega]
    exact k.from_raw_self

/-- C10 witness: `0x0000000100000000` is the minimum bound of
`0x0000000100000005` and is its own minimum bound, both as the successful
minimum of another key and as a key whose low half is already clear. -/
theorem claim_C10_witness :
    M10.get_hash_low_half_min = some M10 ∧ M10.get_hash_low_half_min = some M10 :=
  ⟨(claim_C10 K15).2.1 M10 (by decide), (claim_C10 M10).2.2 (by decide)⟩
